import Mathlib

/-!
# Verification of the WaybackMachine archive-crawler subsystem

Shallow embedding of the repository's core components
(`wayback_analyzer.utils.url_helper`, `utils.rate_limiter`,
`core.storage_manager`, `core.enhanced_crawler`, `core.snapshot_downloader`)
together with proofs and refutations of the specified properties.

Strings are handled through `List Char`; Python's `str.startswith`,
substring containment (`in`), `str.replace` and the single regular
expression `web\.archive\.org/web/(\d{14})/(.+)` used by the code are
translated explicitly.  `\d` is modelled as an ASCII digit.
-/

/-- Translation of Python `s.startswith(pat)` on character lists. -/
def beginsWith : List Char → List Char → Bool
  | [], _ => true
  | _ :: _, [] => false
  | p :: ps, c :: cs => p == c && beginsWith ps cs

/-- Translation of Python `pat in s` (substring containment) on character lists. -/
def containsSub (pat : List Char) : List Char → Bool
  | [] => beginsWith pat []
  | c :: rest => beginsWith pat (c :: rest) || containsSub pat rest

/-- The literal `"web.archive.org/web/"` that starts the regex pattern. -/
def archivePat : List Char := "web.archive.org/web/".toList

/-- Attempt to match the regex `web\.archive\.org/web/(\d{14})/(.+)` at the
head of the list: the 20-character literal, then exactly 14 digits, `/`, and a
non-empty remainder of non-newline characters (greedy `.+`). -/
def tryMatchAt (l : List Char) : Option (List Char × List Char) :=
  if beginsWith archivePat l then
    let rest := l.drop archivePat.length
    let ts := rest.take 14
    if ts.length = 14 && ts.all Char.isDigit then
      match rest.drop 14 with
      | '/' :: r =>
        let orig := r.takeWhile (fun c => c != '\n')
        if orig.isEmpty then none else some (ts, orig)
      | _ => none
    else none
  else none

/-- `re.search` for the archive pattern: leftmost position where a match
succeeds. -/
def reSearchArchive : List Char → Option (List Char × List Char)
  | [] => none
  | c :: rest =>
    match tryMatchAt (c :: rest) with
    | some r => some r
    | none => reSearchArchive rest

/-- `ArchiveUrlHelper.is_archive_url`:
`'web.archive.org' in url and '/web/' in url`. -/
def is_archive_url (url : String) : Bool :=
  containsSub "web.archive.org".toList url.toList &&
    containsSub "/web/".toList url.toList

/-- Python `url.startswith(('http://', 'https://'))`. -/
def hasHttpScheme (l : List Char) : Bool :=
  beginsWith "http://".toList l || beginsWith "https://".toList l

/-- `ArchiveUrlHelper.extract_timestamp_and_original`: reject non-archive
URLs, search for the pattern, and prepend `https://` to a schemeless
original URL.  Returns `(none, none)` when there is no match. -/
def extract_timestamp_and_original (archive_url : String) :
    Option String × Option String :=
  if !is_archive_url archive_url then (none, none)
  else
    match reSearchArchive archive_url.toList with
    | some (ts, orig) =>
      let orig' := if !hasHttpScheme orig then "https://".toList ++ orig else orig
      (some (String.mk ts), some (String.mk orig'))
    | none => (none, none)

/-- Python `url.split('://', 1)[1]`: the part after the first occurrence of
the separator. -/
def afterFirstSep (sep : List Char) : List Char → List Char
  | [] => []
  | c :: rest =>
    if beginsWith sep (c :: rest) then (c :: rest).drop sep.length
    else afterFirstSep sep rest

/-- `ArchiveUrlHelper.build_archive_url`.  The source computes `clean_url`
(the original URL with its scheme stripped) but then interpolates the
unmodified `original_url` into the result; `clean_url` is dead code, kept
here as `_clean_url` for fidelity. -/
def build_archive_url (timestamp original_url : String) : String :=
  let _clean_url : List Char :=
    if hasHttpScheme original_url.toList then
      if containsSub "://".toList original_url.toList then
        afterFirstSep "://".toList original_url.toList
      else original_url.toList
    else original_url.toList
  "https://web.archive.org/web/" ++ timestamp ++ "/" ++ original_url

/-- A valid 14-digit capture timestamp. -/
def validTimestamp (t : String) : Prop :=
  t.toList.length = 14 ∧ t.toList.all Char.isDigit = true

/-! ### Storage manager (`core/storage_manager.py`)

The file system is modelled as the list of paths (segment lists) that exist;
file contents are not modelled, only which paths exist.  `hashlib.md5` is an
external library call and is passed in as an abstract digest function
`md5hex`; both `save_page_content` and `page_exists` receive the same one. -/

/-- `urllib.parse.urlparse(url).netloc`, modelled for URLs that carry a
scheme followed by `//` (the shapes produced by
`extract_timestamp_and_original` and used throughout the code): the
characters between the first `://` (or a leading `//`) and the next
`/`, `?` or `#`.  URLs with no authority component have an empty netloc. -/
def netlocOf (l : List Char) : List Char :=
  let rest :=
    if containsSub "://".toList l then afterFirstSep "://".toList l
    else if beginsWith "//".toList l then l.drop 2
    else []
  rest.takeWhile (fun c => c != '/' && c != '?' && c != '#')

/-- `ArchiveUrlHelper.get_domain`: for an archive URL, first decompose and
use the original URL; then return the lowercased netloc.  Parse failure is
modelled as the empty string (Python returns a falsy value: `None` or `''`). -/
def get_domain (url : String) : String :=
  let url' :=
    if is_archive_url url then
      match extract_timestamp_and_original url with
      | (_, some original_url) => original_url
      | (_, none) => url
    else url
  String.mk ((netlocOf url'.toList).map Char.toLower)

/-- `domain.replace('.', '_').replace('-', '_')` from
`StorageManager.save_page_content` / `page_exists`: two successive
whole-string single-character replacements. -/
def sanitizeDomain (l : List Char) : List Char :=
  (l.map (fun c => if c == '.' then '_' else c)).map (fun c => if c == '-' then '_' else c)

/-- Python `s.endswith(suf)`. -/
def endsWithSuf (suf l : List Char) : Bool :=
  beginsWith suf.reverse l.reverse

/-- `StorageManager._url_to_filename`: strip the scheme, replace
`/ ? & =` by `_`, truncate very long names to 180 characters plus an
8-character digest suffix, and ensure a `.html` extension. -/
def url_to_filename (md5hex : List Char → List Char) (url : List Char) : List Char :=
  let url' := if containsSub "://".toList url then afterFirstSep "://".toList url else url
  let f := url'.map (fun c => if c == '/' then '_' else c)
  let f := f.map (fun c => if c == '?' then '_' else c)
  let f := f.map (fun c => if c == '&' then '_' else c)
  let f := f.map (fun c => if c == '=' then '_' else c)
  let f := if 200 < f.length then f.take 180 ++ '_' :: (md5hex url').take 8 else f
  if endsWithSuf ".html".toList f then f else f ++ ".html".toList

/-- `StorageManager.save_page_content`: decompose the archive URL (raising
`ValueError` on failure, modelled as `Except.error`), extract and sanitize
the domain (raising when it is empty/missing), build the deterministic path
`base/snapshots/safe_domain/timestamp/file_name`, and write the content file
plus its sibling metadata file.  Returns the new file system and the path of
the content file. -/
def save_page_content (md5hex : List Char → List Char) (base : String)
    (fs : List (List String)) (archive_url _content : String) :
    Except String (List (List String) × List String) :=
  match extract_timestamp_and_original archive_url with
  | (some timestamp, some original_url) =>
    let domain := get_domain original_url
    if domain = "" then Except.error ("Cannot extract domain from: " ++ original_url)
    else
      let safe_domain := String.mk (sanitizeDomain domain.toList)
      let file_name := String.mk (url_to_filename md5hex original_url.toList)
      let path := [base, "snapshots", safe_domain, timestamp, file_name]
      let metaPath := [base, "snapshots", safe_domain, timestamp, file_name ++ ".meta.json"]
      Except.ok (fs ++ [path, metaPath], path)
  | _ => Except.error ("Invalid archive URL: " ++ archive_url)

/-- `StorageManager.page_exists`: recompute the same deterministic path and
test whether it exists; `false` when the archive URL does not decompose. -/
def page_exists (md5hex : List Char → List Char) (base : String)
    (fs : List (List String)) (archive_url : String) : Bool :=
  match extract_timestamp_and_original archive_url with
  | (some timestamp, some original_url) =>
    let domain := get_domain original_url
    let safe_domain := String.mk (sanitizeDomain domain.toList)
    let file_name := String.mk (url_to_filename md5hex original_url.toList)
    decide ([base, "snapshots", safe_domain, timestamp, file_name] ∈ fs)
  | _ => false

/-! ### Rate limiter (`utils/rate_limiter.py`)

Time is modelled by an explicit rational-valued clock.  `wait_if_needed`
takes the current wall-clock time (Python's `time.time()` at entry) and
returns the updated limiter state together with the total time slept;
`self.last_request_time = time.time()` at the end of the call is the entry
time plus the time slept.  `runCalls` issues a sequence of calls
sequentially, the caller waiting `g` extra seconds before each call; it
returns the final state, the final clock value, and the list of call
times. -/

structure RateLimiterState where
  delay : ℚ
  burstLimit : ℕ
  lastRequestTime : ℚ
  burstCount : ℕ
  burstStartTime : ℚ
deriving DecidableEq, Repr

/-- The state fields set by `RateLimiter.__init__` for a given delay. -/
def rateLimiterInit (delay : ℚ) (burst_limit : ℕ) : RateLimiterState :=
  { delay := delay, burstLimit := burst_limit,
    lastRequestTime := 0, burstCount := 0, burstStartTime := 0 }

/-- `RateLimiter.__init__`: `self.delay = 1.0 / requests_per_second` is an
unguarded division, raising `ZeroDivisionError` (modelled as `Except.error`)
when the rate is zero. -/
def mkRateLimiter (requests_per_second : ℚ) (burst_limit : ℕ) :
    Except String RateLimiterState :=
  if requests_per_second = 0 then Except.error "ZeroDivisionError"
  else Except.ok (rateLimiterInit (1 / requests_per_second) burst_limit)

/-- `RateLimiter.wait_if_needed` at entry time `t`: reset the burst counter
when more than 10 seconds have passed since the burst window started; sleep
`2 × delay` and reset when the counter has reached the burst limit; then
sleep whatever is left of `delay` since the last request; finally record the
new last-request time and increment the burst counter. -/
def wait_if_needed (s : RateLimiterState) (t : ℚ) : RateLimiterState × ℚ :=
  let bc0 := if 10 < t - s.burstStartTime then 0 else s.burstCount
  let bst0 := if 10 < t - s.burstStartTime then t else s.burstStartTime
  let burstHit := s.burstLimit ≤ bc0
  let sleepBurst := if burstHit then 2 * s.delay else 0
  let bc1 := if burstHit then 0 else bc0
  let bst1 := if burstHit then t else bst0
  let tsl := t - s.lastRequestTime
  let sleepReg := if tsl < s.delay then s.delay - tsl else 0
  let slept := sleepBurst + sleepReg
  ({ s with lastRequestTime := t + slept, burstCount := bc1 + 1, burstStartTime := bst1 },
   slept)

/-- Issue a sequence of `wait_if_needed` calls sequentially, waiting the
given extra gap before each call.  Returns the final state, the final clock
value (end of the last call) and the list of call times. -/
def runCalls : RateLimiterState → ℚ → List ℚ → RateLimiterState × ℚ × List ℚ
  | s, t, [] => (s, t, [])
  | s, t, g :: rest =>
    let r := wait_if_needed s (t + g)
    let next := runCalls r.1 (t + g + r.2) rest
    (next.1, next.2.1, (t + g) :: next.2.2)

/-! ### Snapshot finder (`core/enhanced_crawler.py`, `_find_best_snapshot`)

A CDX capture is modelled by its parsed capture time in whole days
(`none` when `datetime.strptime` or attribute access raises, which the
source skips via `continue`), its status code string, and its archive URL.
The target date is likewise a day number; `abs((snapshot_dt - target_dt).days)`
is modelled as `|ts - target|`. -/

structure Capture where
  timestampDays : Option ℤ
  statuscode : String
  archiveUrl : String
deriving DecidableEq, Repr

/-- `diff < min_diff` where `min_diff` starts at `float('inf')` and is the
distance stored with the current best snapshot. -/
def betterThan (diff : ℤ) : Option (Capture × ℤ) → Bool
  | none => true
  | some (_, m) => decide (diff < m)

/-- The scanning loop of `_find_best_snapshot` for a given target date:
skip unparseable captures, adopt a capture when it is strictly closer and
has status `'200'`, and `break` as soon as the day distance is zero —
whether or not that capture was adopted. -/
def find_best_snapshot_loop (target : ℤ) :
    List Capture → Option (Capture × ℤ) → Option (Capture × ℤ)
  | [], best => best
  | c :: rest, best =>
    match c.timestampDays with
    | none => find_best_snapshot_loop target rest best
    | some ts =>
      let diff := |ts - target|
      let best' :=
        if betterThan diff best && (c.statuscode == "200") then some (c, diff) else best
      if diff = 0 then best' else find_best_snapshot_loop target rest best'

/-- `_find_best_snapshot` with a target date: run the loop and return the
best capture's archive URL, or `None`. -/
def find_best_snapshot (target : ℤ) (captures : List Capture) : Option String :=
  (find_best_snapshot_loop target captures none).map (fun p => p.1.archiveUrl)

/-! ### Batch snapshot downloader (`core/snapshot_downloader.py`)

A snapshot record is identified by a string.  Network outcomes are an
oracle `o : generation -> record -> Bool` (`true` = HTTP 200, `false` = any
failure, which appends the record to `failed_downloads` and bumps the
`failed` counter).  `retryPasses` and `retryLog` instrument each invocation
of `_retry_failed_downloads` (its input queue and the doubled delay it sets);
`fuel` bounds the recursion depth of the model, while the source recurses
without any cap. -/

structure DLState where
  successful : ℕ
  failed : ℕ
  skipped : ℕ
  failedDownloads : List String
  delay : ℚ
  retryPasses : ℕ
  retryLog : List (List String × ℚ)
deriving Repr, DecidableEq

def dlInit (delay : ℚ) : DLState :=
  { successful := 0, failed := 0, skipped := 0, failedDownloads := [],
    delay := delay, retryPasses := 0, retryLog := [] }

def main_pass (o : ℕ → String → Bool) (gen : ℕ) (records : List String)
    (s : DLState) : DLState :=
  records.foldl (fun st r =>
    if o gen r then { st with successful := st.successful + 1 }
    else { st with failed := st.failed + 1,
                   failedDownloads := st.failedDownloads ++ [r] }) s

def filter_step (ex : String → Bool) (acc : List String × DLState) (r : String) :
    List String × DLState :=
  if ex r then (acc.1, { acc.2 with skipped := acc.2.skipped + 1 })
  else (acc.1 ++ [r], acc.2)

def filter_existing (ex : String → Bool) (records : List String) (s : DLState) :
    List String × DLState :=
  records.foldl (filter_step ex) ([], s)

def retry_state (s2 : DLState) : DLState :=
  { s2 with
    failedDownloads := ([] : List String),
    delay := 2 * s2.delay,
    retryPasses := s2.retryPasses + 1,
    retryLog := s2.retryLog ++ [(s2.failedDownloads, 2 * s2.delay)] }

def restore_delay (s4 : DLState) (original_delay : ℚ) : DLState :=
  { s4 with delay := original_delay }

def download_snapshot_batch (o : ℕ → String → Bool) (ex : String → Bool)
    (resumeMode : Bool) : ℕ → ℕ → List String → DLState → DLState
  | gen, fuel, records, s =>
    let fr := if resumeMode then filter_existing ex records s else (records, s)
    if fr.1 = [] then fr.2
    else
      let s2 := main_pass o gen fr.1 fr.2
      if s2.failedDownloads = [] then s2
      else
        match fuel with
        | 0 => s2
        | fuel' + 1 =>
          restore_delay
            (download_snapshot_batch o ex resumeMode (gen + 1) fuel'
              s2.failedDownloads (retry_state s2))
            s2.delay

/-! ### Recursive site crawler (`core/enhanced_crawler.py`)

The HTTP layer is an oracle `o : url -> FetchResult`: either a transport
exception (`requests.RequestException`) or a response carrying a status
code and the same-domain internal links that
`_extract_internal_links_optimized` would return for its body.  The state
additionally carries `trace`, the chronological list of URLs that passed
the visited/depth/budget guard (the visit events), used to express the
no-revisit property.  `fuel` bounds the recursion depth of the model (a
real run never exhausts it because the `depth > maxDepth` guard fires
first). -/

inductive FetchResult where
  | exc (msg : String)
  | resp (status : ℕ) (links : List String)

structure CrawlerConfig where
  maxDepth : ℕ
  maxPages : ℕ
  resumeMode : Bool
  excludePaths : List (List Char)
  md5hex : List Char → List Char
  base : String

structure Failure where
  url : String
  error : String
  statusCode : Option ℕ
  errorType : Option String
  depth : ℕ
deriving DecidableEq, Repr

structure CrawlerState where
  visited : List String
  found : List String
  failed : List Failure
  skipped : List String
  fs : List (List String)
  trace : List String
deriving DecidableEq, Repr

def isExcluded (cfg : CrawlerConfig) (url : String) : Bool :=
  cfg.excludePaths.any (fun e => containsSub e (url.toList.map Char.toLower))

def exclude_paths_default : List (List Char) :=
  ["/wp-admin".toList, "/admin".toList, "/login".toList,
   "/search".toList, "/пошук".toList, "/404".toList,
   ".pdf".toList, ".doc".toList, ".zip".toList,
   ".jpg".toList, ".png".toList, ".gif".toList]

def priority_paths_default : List String :=
  ["/about", "/про-партію", "/програма", "/program",
   "/news", "/новини", "/blog", "/блог",
   "/deputies", "/депутати", "/candidates", "/кандидати",
   "/contacts", "/контакти", "/join", "/приєднатися"]

/-- `self.visited_urls.add(archive_url)`, also recording the visit event in
the instrumentation trace. -/
def mark_visited (s : CrawlerState) (url : String) : CrawlerState :=
  { s with visited := url :: s.visited, trace := s.trace ++ [url] }

/-- Append one `FailureRecord` to `self.failed_urls`. -/
def add_failure (s : CrawlerState) (f : Failure) : CrawlerState :=
  { s with failed := s.failed ++ [f] }

/-- Record a skipped (excluded) URL. -/
def add_skipped (s : CrawlerState) (url : String) : CrawlerState :=
  { s with skipped := s.skipped ++ [url] }

/-- Adopt the file system returned by the storage save and append the page
to `self.found_pages`. -/
def add_found (s : CrawlerState) (fs' : List (List String)) (url : String) : CrawlerState :=
  { s with fs := fs', found := s.found ++ [url] }

/-- The body of `EnhancedSnapshotCrawler._crawl_recursive` for one URL.
`recurse` is the continuation used on HTTP 200 to visit the extracted
internal links at `depth + 1` (the source's `for link_url in internal_links`
loop); it is a parameter so that the recursive knot can be tied by fuel
below. -/
def crawl_step (o : String → FetchResult) (cfg : CrawlerConfig)
    (recurse : List String → CrawlerState → CrawlerState)
    (depth : ℕ) (archive_url : String) (s : CrawlerState) : CrawlerState :=
  if cfg.maxDepth < depth ∨ cfg.maxPages ≤ s.found.length ∨ archive_url ∈ s.visited
  then s
  else
    if isExcluded cfg archive_url then
      add_skipped (mark_visited s archive_url) archive_url
    else
      if cfg.resumeMode &&
          page_exists cfg.md5hex cfg.base (mark_visited s archive_url).fs archive_url
      then mark_visited s archive_url
      else
        match o archive_url with
        | FetchResult.exc msg =>
          add_failure (mark_visited s archive_url)
            ⟨archive_url, msg, none, some "RequestException", depth⟩
        | FetchResult.resp status links =>
          if status = 404 then
            add_failure (mark_visited s archive_url)
              ⟨archive_url, "Not found in archive", some 404, none, depth⟩
          else if status ≠ 200 then
            add_failure (mark_visited s archive_url)
              ⟨archive_url, "HTTP " ++ toString status, some status, none, depth⟩
          else
            match save_page_content cfg.md5hex cfg.base
                (mark_visited s archive_url).fs archive_url "" with
            | Except.error e =>
              add_failure (mark_visited s archive_url)
                ⟨archive_url, e, none, some "UnexpectedException", depth⟩
            | Except.ok (fs', _) =>
              if depth < cfg.maxDepth ∧
                  (add_found (mark_visited s archive_url) fs' archive_url).found.length
                    < cfg.maxPages then
                recurse links (add_found (mark_visited s archive_url) fs' archive_url)
              else add_found (mark_visited s archive_url) fs' archive_url

mutual

/-- `_crawl_recursive`, with `fuel` bounding the remaining recursion depth
(always at least `maxDepth + 1` in a real run, so the guard
`depth > maxDepth` fires before fuel runs out). -/
def crawl_recursive (o : String → FetchResult) (cfg : CrawlerConfig) :
    ℕ → ℕ → String → CrawlerState → CrawlerState
  | fuel, depth, archive_url, s =>
    crawl_step o cfg
      (fun links s2 =>
        match fuel with
        | 0 => s2
        | fuel' + 1 => crawl_links o cfg fuel' (depth + 1) links s2)
      depth archive_url s
termination_by fuel depth url s => (fuel, 0)

/-- The `for link_url in internal_links` loop with its
`if len(self.found_pages) >= self.max_pages: break`. -/
def crawl_links (o : String → FetchResult) (cfg : CrawlerConfig) :
    ℕ → ℕ → List String → CrawlerState → CrawlerState
  | _, _, [], s => s
  | fuel, depth, l :: rest, s =>
    if cfg.maxPages ≤ s.found.length then s
    else crawl_links o cfg fuel depth rest (crawl_recursive o cfg fuel depth l s)
termination_by fuel depth links s => (fuel, links.length + 1)

end

def crawl_seeds (o : String → FetchResult) (cfg : CrawlerConfig) (fuel : ℕ) :
    List String → CrawlerState → CrawlerState
  | [], s => s
  | u :: rest, s =>
    if cfg.maxPages ≤ s.found.length then s
    else crawl_seeds o cfg fuel rest
      (if u ∈ s.visited then s else crawl_recursive o cfg fuel 0 u s)

def crawl_with_priority (o : String → FetchResult) (cfg : CrawlerConfig) (fuel : ℕ)
    (start_url : String) (s : CrawlerState) : CrawlerState :=
  match extract_timestamp_and_original start_url with
  | (some timestamp, some base_url) =>
    let priority_urls :=
      priority_paths_default.map (fun p => build_archive_url timestamp (base_url ++ p))
    let s1 := crawl_seeds o cfg fuel (start_url :: priority_urls) s
    if s1.found.length < cfg.maxPages then crawl_recursive o cfg fuel 0 start_url s1
    else s1
  | _ => s

def initCrawlerState (fs0 : List (List String)) : CrawlerState :=
  { visited := [], found := [], failed := [], skipped := [], fs := fs0, trace := [] }

def CrawlInv (cfg : CrawlerConfig) (s : CrawlerState) : Prop :=
  s.found.length ≤ cfg.maxPages ∧ s.trace.Nodup ∧ ∀ u ∈ s.trace, u ∈ s.visited

/-! ## Theorems -/

theorem beginsWith_append_self (p r : List Char) : beginsWith p (p ++ r) = true := by
  induction p with
  | nil => rfl
  | cons c cs ih => simp [beginsWith, ih]

theorem beginsWith_mono_append {p l : List Char} (r : List Char)
    (h : beginsWith p l = true) : beginsWith p (l ++ r) = true := by
  induction p generalizing l with
  | nil => rfl
  | cons c cs ih =>
    cases l with
    | nil => simp [beginsWith] at h
    | cons d ds =>
      simp [beginsWith] at h ⊢
      exact ⟨h.1, ih h.2⟩

theorem containsSub_mono_append {pat l : List Char} (r : List Char)
    (h : containsSub pat l = true) : containsSub pat (l ++ r) = true := by
  induction l with
  | nil =>
    simp [containsSub] at h
    cases r with
    | nil => simpa [containsSub] using h
    | cons c cs =>
      simp [containsSub]
      exact Or.inl (beginsWith_mono_append _ h)
  | cons c cs ih =>
    simp [containsSub] at h ⊢
    rcases h with h | h
    · exact Or.inl (beginsWith_mono_append _ h)
    · exact Or.inr (ih h)

theorem reSearchArchive_skip {c : Char} (l : List Char)
    (h : (('w' : Char) == c) = false) :
    reSearchArchive (c :: l) = reSearchArchive l := by
  have hm : tryMatchAt (c :: l) = none := by
    have : beginsWith archivePat (c :: l) = false := by
      have hp : archivePat = 'w' :: "eb.archive.org/web/".toList := by decide
      rw [hp]
      simp [beginsWith, h]
    simp [tryMatchAt, this]
  simp [reSearchArchive, hm]

theorem takeWhile_no_newline {l : List Char} (h : '\n' ∉ l) :
    l.takeWhile (fun c => c != '\n') = l := by
  induction l with
  | nil => rfl
  | cons c cs ih =>
    simp at h
    have hc : (c != '\n') = true := by
      simp only [bne_iff_ne, ne_eq]
      exact fun hne => h.1 hne.symm
    simp [List.takeWhile, hc, ih h.2]

theorem tryMatchAt_hit (t u : List Char) (hlen : t.length = 14)
    (hdig : t.all Char.isDigit = true) (hu : u ≠ []) (hnl : '\n' ∉ u) :
    tryMatchAt (archivePat ++ (t ++ '/' :: u)) = some (t, u) := by
  have h1 : beginsWith archivePat (archivePat ++ (t ++ '/' :: u)) = true :=
    beginsWith_append_self _ _
  have h2 : (archivePat ++ (t ++ '/' :: u)).drop archivePat.length = t ++ '/' :: u :=
    List.drop_left _ _
  have h3 : (t ++ '/' :: u).take 14 = t := by
    rw [← hlen]; exact List.take_left _ _
  have h4 : (t ++ '/' :: u).drop 14 = '/' :: u := by
    rw [← hlen]; exact List.drop_left _ _
  rw [tryMatchAt, if_pos h1]
  simp only [h2, h3, h4, hlen, hdig]
  simp [takeWhile_no_newline hnl, hu]

theorem toList_build (t u : String) :
    (build_archive_url t u).toList =
      'h' :: 't' :: 't' :: 'p' :: 's' :: ':' :: '/' :: '/' ::
        (archivePat ++ (t.toList ++ '/' :: u.toList)) := by
  show ("https://web.archive.org/web/" ++ t ++ "/" ++ u).toList = _
  have : ∀ a b : String, (a ++ b).toList = a.toList ++ b.toList := by
    intro a b; exact String.data_append a b
  rw [this, this, this]
  have h1 : ("https://web.archive.org/web/" : String).toList =
      'h' :: 't' :: 't' :: 'p' :: 's' :: ':' :: '/' :: '/' :: archivePat := by decide
  have h2 : ("/" : String).toList = ['/'] := by decide
  rw [h1, h2]
  simp

theorem reSearch_build (t u : String) (hlen : t.toList.length = 14)
    (hdig : t.toList.all Char.isDigit = true) (hu : u.toList ≠ [])
    (hnl : '\n' ∉ u.toList) :
    reSearchArchive (build_archive_url t u).toList = some (t.toList, u.toList) := by
  rw [toList_build]
  rw [reSearchArchive_skip _ (by decide), reSearchArchive_skip _ (by decide),
    reSearchArchive_skip _ (by decide), reSearchArchive_skip _ (by decide),
    reSearchArchive_skip _ (by decide), reSearchArchive_skip _ (by decide),
    reSearchArchive_skip _ (by decide), reSearchArchive_skip _ (by decide)]
  have hpat : archivePat ++ (t.toList ++ '/' :: u.toList) =
      'w' :: ("eb.archive.org/web/".toList ++ (t.toList ++ '/' :: u.toList)) := by
    have : archivePat = 'w' :: "eb.archive.org/web/".toList := by decide
    rw [this]; rfl
  rw [hpat, reSearchArchive]
  rw [← hpat, tryMatchAt_hit _ _ hlen hdig hu hnl]

theorem is_archive_url_build (t u : String) :
    is_archive_url (build_archive_url t u) = true := by
  rw [is_archive_url]
  rw [toList_build]
  have hsplit : 'h' :: 't' :: 't' :: 'p' :: 's' :: ':' :: '/' :: '/' ::
      (archivePat ++ (t.toList ++ '/' :: u.toList)) =
      ('h' :: 't' :: 't' :: 'p' :: 's' :: ':' :: '/' :: '/' :: archivePat) ++
        (t.toList ++ '/' :: u.toList) := by simp
  rw [hsplit]
  have c1 : containsSub "web.archive.org".toList
      ('h' :: 't' :: 't' :: 'p' :: 's' :: ':' :: '/' :: '/' :: archivePat) = true := by decide
  have c2 : containsSub "/web/".toList
      ('h' :: 't' :: 't' :: 'p' :: 's' :: ':' :: '/' :: '/' :: archivePat) = true := by decide
  rw [containsSub_mono_append _ c1, containsSub_mono_append _ c2]
  rfl

/-- C1 counterexample: for the valid timestamp `20200101000000` and the
absolute scheme-less URL `example.com`, decomposing the composed archive URL
does not return the original pair — the original URL comes back with an
`https://` scheme prepended, so the round-trip law fails for scheme-less
input. -/
theorem c1_roundtrip_counterexample :
    extract_timestamp_and_original
        (build_archive_url "20200101000000" "example.com")
      = (some "20200101000000", some "https://example.com") ∧
    ("https://example.com" : String) ≠ "example.com" := by
  constructor
  · decide
  · decide

/-- C1 (amended): for every valid 14-digit timestamp `t` and every
newline-free URL `u` that carries an explicit `http://` or `https://` scheme,
`extract_timestamp_and_original (build_archive_url t u) = (some t, some u)`.
For scheme-less `u` the decomposition instead returns `https:// ++ u`
(see the counterexample). -/
theorem c1_roundtrip_with_scheme (t u : String) (ht : validTimestamp t)
    (hscheme : hasHttpScheme u.toList = true) (hnl : '\n' ∉ u.toList) :
    extract_timestamp_and_original (build_archive_url t u) = (some t, some u) := by
  have hu : u.toList ≠ [] := by
    intro h
    rw [hasHttpScheme, h] at hscheme
    simp [beginsWith] at hscheme
  rw [extract_timestamp_and_original, is_archive_url_build, reSearch_build t u ht.1 ht.2 hu hnl]
  have hs : hasHttpScheme u.data = true := hscheme
  have hmk : ∀ s : String, String.mk s.data = s := fun s => rfl
  simp [hs, hmk]

/-- C1 witness: the amended round-trip theorem applied at the concrete pair
`("20200101000000", "https://example.com/page")`. -/
theorem c1_roundtrip_with_scheme_witness :
    extract_timestamp_and_original
        (build_archive_url "20200101000000" "https://example.com/page")
      = (some "20200101000000", some "https://example.com/page") :=
  c1_roundtrip_with_scheme "20200101000000" "https://example.com/page"
    (by constructor <;> decide) (by decide) (by decide)

/-- C8 counterexample: for the reachable domain `example.com:8080` (the
netloc of `https://example.com:8080/page`), the sanitized domain is
`example_com:8080`, which still contains `:` — a character that is neither
alphanumeric nor `_` — so the sanitization does not map every
non-alphanumeric character to an underscore. -/
theorem c8_sanitize_counterexample :
    get_domain "https://example.com:8080/page" = "example.com:8080" ∧
    sanitizeDomain "example.com:8080".toList = "example_com:8080".toList ∧
    (sanitizeDomain "example.com:8080".toList).all
      (fun c => c.isAlphanum || c == '_') = false := by
  refine ⟨by decide, by decide, by decide⟩

/-- C8 (amended): the domain sanitization used for the on-disk path replaces
exactly the characters `.` and `-` with `_` and leaves every other character
unchanged; it does not map arbitrary non-alphanumeric characters (such as the
`:` of a port) to underscores. -/
theorem c8_sanitize_maps_dot_hyphen (l : List Char) :
    sanitizeDomain l = l.map (fun c => if c == '.' || c == '-' then '_' else c) := by
  induction l with
  | nil => rfl
  | cons c cs ih =>
    simp only [sanitizeDomain, List.map_cons] at ih ⊢
    rw [ih]
    by_cases h1 : c = '.'
    · subst h1; simp
    · by_cases h2 : c = '-'
      · subst h2; simp
      · simp [h1, h2]

/-- C9: for every archive URL that decomposes successfully and whose original
URL yields a non-empty domain, `save_page_content` succeeds and immediately
afterwards `page_exists` returns `true` on the same archive URL — both
compute the same deterministic path from the same reference. -/
theorem c9_save_then_exists (md5hex : List Char → List Char) (base : String)
    (fs : List (List String)) (url content t o : String)
    (hex : extract_timestamp_and_original url = (some t, some o))
    (hdom : get_domain o ≠ "") :
    ∃ fs' p, save_page_content md5hex base fs url content = Except.ok (fs', p) ∧
      page_exists md5hex base fs' url = true := by
  simp only [save_page_content, page_exists, hex]
  rw [if_neg hdom]
  refine ⟨_, _, rfl, ?_⟩
  simp

/-- C9 witness: the save/exists theorem applied to a concrete archive URL on
an empty file system. -/
theorem c9_save_then_exists_witness :
    ∃ fs' p, save_page_content (fun _ => []) "base" []
        "https://web.archive.org/web/20200101000000/https://example.com/page" "c"
        = Except.ok (fs', p) ∧
      page_exists (fun _ => []) "base" fs'
        "https://web.archive.org/web/20200101000000/https://example.com/page" = true :=
  c9_save_then_exists (fun _ => []) "base" []
    "https://web.archive.org/web/20200101000000/https://example.com/page" "c"
    "20200101000000" "https://example.com/page" (by decide) (by decide)

theorem wait_delay_eq (s : RateLimiterState) (t : ℚ) :
    (wait_if_needed s t).1.delay = s.delay := rfl

theorem wait_burstLimit_eq (s : RateLimiterState) (t : ℚ) :
    (wait_if_needed s t).1.burstLimit = s.burstLimit := rfl

theorem wait_last_eq (s : RateLimiterState) (t : ℚ) :
    (wait_if_needed s t).1.lastRequestTime = t + (wait_if_needed s t).2 := rfl

theorem wait_slept_nonneg (s : RateLimiterState) (t : ℚ) (hd : 0 ≤ s.delay) :
    0 ≤ (wait_if_needed s t).2 := by
  simp only [wait_if_needed]
  split_ifs <;> linarith

theorem wait_new_last_ge (s : RateLimiterState) (t : ℚ) (hd : 0 ≤ s.delay)
    (hle : s.lastRequestTime ≤ t) :
    s.lastRequestTime + s.delay ≤ (wait_if_needed s t).1.lastRequestTime := by
  simp only [wait_if_needed]
  split_ifs <;> linarith

theorem wait_burst_last_ge (s : RateLimiterState) (t : ℚ)
    (hreset : ¬ 10 < t - s.burstStartTime)
    (hbc : s.burstLimit ≤ s.burstCount) :
    s.lastRequestTime + 3 * s.delay ≤ (wait_if_needed s t).1.lastRequestTime := by
  simp only [wait_if_needed, if_neg hreset, if_pos hbc]
  split_ifs <;> linarith

theorem wait_noburst_state (s : RateLimiterState) (t : ℚ)
    (hreset : ¬ 10 < t - s.burstStartTime) (hbc : ¬ s.burstLimit ≤ s.burstCount) :
    (wait_if_needed s t).1.burstCount = s.burstCount + 1 ∧
      (wait_if_needed s t).1.burstStartTime = s.burstStartTime := by
  simp only [wait_if_needed, if_neg hreset, if_neg hbc]
  constructor <;> first | rfl | trivial

theorem wait_burst_slept_ge (s : RateLimiterState) (t : ℚ)
    (hreset : ¬ 10 < t - s.burstStartTime) (hbc : s.burstLimit ≤ s.burstCount) :
    2 * s.delay ≤ (wait_if_needed s t).2 := by
  simp only [wait_if_needed, if_neg hreset, if_pos hbc]
  split_ifs <;> linarith

/-- Auxiliary induction for the burst lower bound: starting from a state at
the moment of its last request, with the burst window still open
(`burstStartTime = 0`) and exactly enough remaining calls to reach the burst
limit on the last one, the final clock is at least `n·delay + 2·delay`
beyond the starting last-request time. -/
theorem runCalls_burst_bound (gaps : List ℚ) :
    ∀ s : RateLimiterState, s.burstStartTime = 0 → 0 ≤ s.delay →
    s.burstCount + gaps.length = s.burstLimit + 1 →
    gaps ≠ [] →
    (∀ gp ∈ gaps, 0 ≤ gp) →
    (∀ x ∈ (runCalls s s.lastRequestTime gaps).2.2, x ≤ 10) →
    s.lastRequestTime + gaps.length * s.delay + 2 * s.delay ≤
      (runCalls s s.lastRequestTime gaps).2.1 := by
  induction gaps with
  | nil => intro _ _ _ _ hne _; exact absurd rfl hne
  | cons g rest ih =>
    intro s hbst hd hcount _ hg htimes
    have hg0 : 0 ≤ g := hg g (List.mem_cons_self g rest)
    have ht1 : s.lastRequestTime + g ≤ 10 := by
      have := htimes (s.lastRequestTime + g)
      simp only [runCalls, List.mem_cons] at this
      exact this (Or.inl trivial)
    have hreset : ¬ 10 < (s.lastRequestTime + g) - s.burstStartTime := by
      rw [hbst]; linarith
    cases rest with
    | nil =>
      -- a single remaining call: the burst limit is reached, the penalty fires
      have hbc : s.burstLimit ≤ s.burstCount := by
        simp at hcount; omega
      have hlast := wait_burst_last_ge s (s.lastRequestTime + g) hreset hbc
      simp only [runCalls, List.length_cons, List.length_nil]
      rw [wait_last_eq] at hlast
      push_cast
      linarith
    | cons g' rest' =>
      -- an intermediate call: no reset, no burst; it advances `last` by ≥ delay
      have hbc : ¬ s.burstLimit ≤ s.burstCount := by
        simp at hcount; omega
      have hle : s.lastRequestTime ≤ s.lastRequestTime + g := by linarith
      set t1 := s.lastRequestTime + g with ht1def
      have hlast := wait_new_last_ge s t1 hd hle
      have hstate := wait_noburst_state s t1 hreset hbc
      set s' := (wait_if_needed s t1).1 with hs'
      have hd' : 0 ≤ s'.delay := by rw [hs', wait_delay_eq]; exact hd
      have hbst' : s'.burstStartTime = 0 := by rw [hs', hstate.2, hbst]
      have hcount' : s'.burstCount + (g' :: rest').length = s'.burstLimit + 1 := by
        rw [hs', hstate.1, wait_burstLimit_eq]
        simp at hcount ⊢; omega
      have hg' : ∀ gp ∈ g' :: rest', 0 ≤ gp := fun gp hgp => hg gp (List.mem_cons_of_mem g hgp)
      have hrun : runCalls s s.lastRequestTime (g :: g' :: rest') =
          ((runCalls s' s'.lastRequestTime (g' :: rest')).1,
           (runCalls s' s'.lastRequestTime (g' :: rest')).2.1,
           t1 :: (runCalls s' s'.lastRequestTime (g' :: rest')).2.2) := by
        simp only [runCalls]
        rw [← ht1def, ← wait_last_eq, ← hs']
      have htimes' : ∀ x ∈ (runCalls s' s'.lastRequestTime (g' :: rest')).2.2, x ≤ 10 := by
        intro x hx
        apply htimes
        rw [hrun]
        exact List.mem_cons_of_mem _ hx
      have IH := ih s' hbst' hd' hcount' (by simp) hg' htimes'
      rw [hrun]
      have hdelay' : s'.delay = s.delay := by rw [hs', wait_delay_eq]
      rw [hdelay'] at IH
      simp only [List.length_cons] at IH ⊢
      push_cast at IH ⊢
      linarith

/-- C6: on a freshly constructed rate limiter with base delay `d ≥ 0` and
burst allowance `B`, any sequence of `B + 1` sequential `wait_if_needed`
calls whose call times all fall inside the initial 10-second burst window
takes at least `2·d + B·d` of elapsed time, measured on the modelled clock
from the first call's start to the last call's return. -/
theorem c6_burst_window_lower_bound (d : ℚ) (B : ℕ) (g : ℚ) (rest : List ℚ)
    (hd : 0 ≤ d) (hlen : rest.length = B) (hg : 0 ≤ g)
    (hrest : ∀ x ∈ rest, 0 ≤ x)
    (htimes : ∀ x ∈ (runCalls (rateLimiterInit d B) 0 (g :: rest)).2.2, x ≤ 10) :
    g + (2 * d + B * d) ≤ (runCalls (rateLimiterInit d B) 0 (g :: rest)).2.1 := by
  set s0 := rateLimiterInit d B with hs0
  have hfields : s0.delay = d ∧ s0.burstLimit = B ∧ s0.lastRequestTime = 0 ∧
      s0.burstCount = 0 ∧ s0.burstStartTime = 0 := ⟨rfl, rfl, rfl, rfl, rfl⟩
  have ht1mem : (0 : ℚ) + g ∈ (runCalls s0 0 (g :: rest)).2.2 := by
    simp only [runCalls, List.mem_cons]
    left
    trivial
  have ht1 : (0 : ℚ) + g ≤ 10 := htimes _ ht1mem
  have hreset : ¬ 10 < ((0 : ℚ) + g) - s0.burstStartTime := by
    rw [hfields.2.2.2.2]; linarith
  cases B with
  | zero =>
    -- burst limit 0: the very first call already pays the 2×delay penalty
    have hrest0 : rest = [] := List.length_eq_zero.mp hlen
    subst hrest0
    have hbc : s0.burstLimit ≤ s0.burstCount := by
      rw [hfields.2.1, hfields.2.2.2.1]
    have hslept := wait_burst_slept_ge s0 (0 + g) hreset hbc
    simp only [runCalls]
    rw [hfields.1] at hslept
    push_cast
    linarith
  | succ n =>
    have hrestne : rest ≠ [] := by
      intro h; rw [h] at hlen; simp at hlen
    have hbc : ¬ s0.burstLimit ≤ s0.burstCount := by
      rw [hfields.2.1, hfields.2.2.2.1]; omega
    set t1 := (0 : ℚ) + g with ht1def
    have hstate := wait_noburst_state s0 t1 hreset hbc
    set s' := (wait_if_needed s0 t1).1 with hs'
    have hd' : 0 ≤ s'.delay := by rw [hs', wait_delay_eq, hfields.1]; exact hd
    have hbst' : s'.burstStartTime = 0 := by rw [hs', hstate.2, hfields.2.2.2.2]
    have hcount' : s'.burstCount + rest.length = s'.burstLimit + 1 := by
      rw [hs', hstate.1, wait_burstLimit_eq, hfields.2.1, hfields.2.2.2.1, hlen]
      omega
    have hslept : 0 ≤ (wait_if_needed s0 t1).2 :=
      wait_slept_nonneg s0 t1 (by rw [hfields.1]; exact hd)
    have hlastge : t1 ≤ s'.lastRequestTime := by
      rw [hs', wait_last_eq]; linarith
    have hrun : runCalls s0 0 (g :: rest) =
        ((runCalls s' s'.lastRequestTime rest).1,
         (runCalls s' s'.lastRequestTime rest).2.1,
         t1 :: (runCalls s' s'.lastRequestTime rest).2.2) := by
      simp only [runCalls]
      rw [← ht1def, ← wait_last_eq, ← hs']
    have htimes' : ∀ x ∈ (runCalls s' s'.lastRequestTime rest).2.2, x ≤ 10 := by
      intro x hx
      apply htimes
      rw [hrun]
      exact List.mem_cons_of_mem _ hx
    have IH := runCalls_burst_bound rest s' hbst' hd' hcount' hrestne
      (fun gp hgp => hrest gp hgp) htimes'
    have hdelay' : s'.delay = d := by rw [hs', wait_delay_eq, hfields.1]
    rw [hdelay', hlen] at IH
    rw [hrun]
    push_cast at IH ⊢
    linarith

theorem runCalls_example_times :
    (runCalls (rateLimiterInit 1 1) 0 (0 :: [0])).2.2 = [0, 1] := by
  norm_num [runCalls, wait_if_needed, rateLimiterInit]

/-- C6 witness: the lower bound applied to a limiter with delay 1 and burst
allowance 1, for two back-to-back calls: elapsed time 4 ≥ 2·1 + 1·1. -/
theorem c6_burst_window_lower_bound_witness :
    (0 : ℚ) + (2 * 1 + (1 : ℕ) * 1) ≤ (runCalls (rateLimiterInit 1 1) 0 (0 :: [0])).2.1 :=
  c6_burst_window_lower_bound 1 1 0 [0] (by norm_num) (by decide) (by norm_num)
    (by intro x hx; simp at hx; simp [hx])
    (by
      rw [runCalls_example_times]
      intro x hx
      simp at hx
      rcases hx with h | h <;> rw [h] <;> norm_num)

/-- C10: constructing a rate limiter with `requests_per_second = 0` raises a
division-by-zero error, while for every positive rate the constructor
succeeds with `delay = 1 / requests_per_second`. -/
theorem c10_rate_limiter_init (r : ℚ) (B : ℕ) (hr : 0 < r) :
    mkRateLimiter 0 B = Except.error "ZeroDivisionError" ∧
    ∃ s, mkRateLimiter r B = Except.ok s ∧ s.delay = 1 / r := by
  refine ⟨rfl, rateLimiterInit (1 / r) B, ?_, rfl⟩
  rw [mkRateLimiter, if_neg (ne_of_gt hr)]

/-- C10 witness: the constructor theorem at rate 2 and burst limit 3. -/
theorem c10_rate_limiter_init_witness :
    mkRateLimiter 0 3 = Except.error "ZeroDivisionError" ∧
    ∃ s, mkRateLimiter 2 3 = Except.ok s ∧ s.delay = 1 / 2 :=
  c10_rate_limiter_init 2 3 (by norm_num)

theorem loop_cons_none (target : ℤ) (c : Capture) (rest : List Capture)
    (best : Option (Capture × ℤ)) (h : c.timestampDays = none) :
    find_best_snapshot_loop target (c :: rest) best =
      find_best_snapshot_loop target rest best := by
  rw [find_best_snapshot_loop, h]

theorem loop_cons_some (target : ℤ) (c : Capture) (rest : List Capture)
    (best : Option (Capture × ℤ)) (ts : ℤ) (h : c.timestampDays = some ts) :
    find_best_snapshot_loop target (c :: rest) best =
      (if |ts - target| = 0 then
        (if betterThan |ts - target| best && (c.statuscode == "200")
          then some (c, |ts - target|) else best)
      else find_best_snapshot_loop target rest
        (if betterThan |ts - target| best && (c.statuscode == "200")
          then some (c, |ts - target|) else best)) := by
  rw [find_best_snapshot_loop, h]

theorem find_best_loop_spec (target : ℤ) (l : List Capture) :
    ∀ best : Option (Capture × ℤ),
    (∀ c ∈ l, ∀ ts, c.timestampDays = some ts → |ts - target| = 0 → c.statuscode = "200") →
    (∀ c m, best = some (c, m) →
      c.statuscode = "200" ∧ ∃ ts, c.timestampDays = some ts ∧ m = |ts - target|) →
    ((∀ c m, find_best_snapshot_loop target l best = some (c, m) →
        c.statuscode = "200" ∧ ∃ ts, c.timestampDays = some ts ∧ m = |ts - target|) ∧
     (∀ c m, find_best_snapshot_loop target l best = some (c, m) →
        ∀ c' ∈ l, ∀ ts', c'.timestampDays = some ts' → c'.statuscode = "200" →
          m ≤ |ts' - target|) ∧
     (∀ c m, find_best_snapshot_loop target l best = some (c, m) →
        ∀ c0 m0, best = some (c0, m0) → m ≤ m0) ∧
     (∀ c m, find_best_snapshot_loop target l best = some (c, m) →
        best = some (c, m) ∨ c ∈ l) ∧
     (find_best_snapshot_loop target l best = none →
        best = none ∧
          ∀ c ∈ l, ∀ ts, c.timestampDays = some ts → c.statuscode ≠ "200")) := by
  induction l with
  | nil =>
    intro best _ hbest
    refine ⟨hbest, by simp [find_best_snapshot_loop], ?_, ?_, ?_⟩
    · intro c m hr c0 m0 hb
      rw [find_best_snapshot_loop] at hr
      rw [hr] at hb
      simp only [Option.some.injEq, Prod.mk.injEq] at hb
      omega
    · intro c m hr
      exact Or.inl hr
    · intro hr
      exact ⟨hr, by simp⟩
  | cons c rest ih =>
    intro best hz hbest
    have hzrest : ∀ c' ∈ rest, ∀ ts, c'.timestampDays = some ts →
        |ts - target| = 0 → c'.statuscode = "200" :=
      fun c' hc' => hz c' (List.mem_cons_of_mem c hc')
    cases hts : c.timestampDays with
    | none =>
      have heq := loop_cons_none target c rest best hts
      rw [heq]
      have IH := ih best hzrest hbest
      refine ⟨IH.1, ?_, IH.2.2.1, ?_, ?_⟩
      · intro c1 m hr c' hc' ts' hts' hst'
        rcases List.mem_cons.mp hc' with h | h
        · rw [h, hts] at hts'; exact absurd hts' (by simp)
        · exact IH.2.1 c1 m hr c' h ts' hts' hst'
      · intro c1 m hr
        rcases IH.2.2.2.1 c1 m hr with h | h
        · exact Or.inl h
        · exact Or.inr (List.mem_cons_of_mem c h)
      · intro hr
        refine ⟨(IH.2.2.2.2 hr).1, ?_⟩
        intro c' hc' ts' hts'
        rcases List.mem_cons.mp hc' with h | h
        · rw [h, hts] at hts'; exact absurd hts' (by simp)
        · exact (IH.2.2.2.2 hr).2 c' h ts' hts'
    | some ts =>
      have heq := loop_cons_some target c rest best ts hts
      set diff := |ts - target| with hdiff
      set best' :=
        (if betterThan diff best && (c.statuscode == "200")
          then some (c, diff) else best) with hbest'
      have hwf' : ∀ c1 m, best' = some (c1, m) →
          c1.statuscode = "200" ∧ ∃ ts1, c1.timestampDays = some ts1 ∧ m = |ts1 - target| := by
        intro c1 m h
        rw [hbest'] at h
        split at h
        · rename_i hcond
          simp only [Option.some.injEq, Prod.mk.injEq] at h
          obtain ⟨h1, h2⟩ := h
          subst h1; subst h2
          have := (Bool.and_eq_true _ _).mp hcond
          refine ⟨by simpa using this.2, ts, hts, rfl⟩
        · exact hbest c1 m h
      have hmono' : ∀ c1 m, best' = some (c1, m) →
          ∀ c0 m0, best = some (c0, m0) → m ≤ m0 := by
        intro c1 m h c0 m0 hb
        rw [hbest'] at h
        split at h
        · rename_i hcond
          have hcnd := (Bool.and_eq_true _ _).mp hcond
          rw [hb] at hcnd
          have hlt : diff < m0 := by
            have := hcnd.1
            simp only [betterThan] at this
            exact of_decide_eq_true this
          simp only [Option.some.injEq, Prod.mk.injEq] at h
          omega
        · rw [hb] at h
          simp only [Option.some.injEq, Prod.mk.injEq] at h
          omega
      have hcov : c.statuscode = "200" → ∃ c1 m, best' = some (c1, m) ∧ m ≤ diff := by
        intro hst
        rw [hbest']
        cases hb : best with
        | none =>
          refine ⟨c, diff, ?_, le_refl _⟩
          simp [betterThan, hst]
        | some p =>
          obtain ⟨c0, m0⟩ := p
          by_cases hlt : diff < m0
          · refine ⟨c, diff, ?_, le_refl _⟩
            simp [betterThan, hst, hlt]
          · refine ⟨c0, m0, ?_, by omega⟩
            simp [betterThan, hst, hlt]
      have hprov' : ∀ c1 m, best' = some (c1, m) → best = some (c1, m) ∨ c1 = c := by
        intro c1 m h
        rw [hbest'] at h
        split at h
        · simp only [Option.some.injEq, Prod.mk.injEq] at h
          exact Or.inr h.1.symm
        · exact Or.inl h
      by_cases hd0 : diff = 0
      · have heq2 : find_best_snapshot_loop target (c :: rest) best = best' := by
          rw [heq, if_pos hd0]
        have hst : c.statuscode = "200" :=
          hz c (List.mem_cons_self c rest) ts hts (by rw [← hdiff]; exact hd0)
        obtain ⟨c1, m1, hb1, hm1⟩ := hcov hst
        have hm1z : m1 = 0 := by
          obtain ⟨_, ts1, _, hmeq⟩ := hwf' c1 m1 hb1
          have : 0 ≤ m1 := by rw [hmeq]; exact abs_nonneg _
          omega
        rw [heq2]
        refine ⟨hwf', ?_, ?_, ?_, ?_⟩
        · intro c2 m hr c' _ ts' _ _
          rw [hb1] at hr
          simp only [Option.some.injEq, Prod.mk.injEq] at hr
          have : (0:ℤ) ≤ |ts' - target| := abs_nonneg _
          omega
        · exact fun c2 m hr c0 m0 hb => hmono' c2 m hr c0 m0 hb
        · intro c2 m hr
          rcases hprov' c2 m hr with h | h
          · exact Or.inl h
          · exact Or.inr (by rw [h]; exact List.mem_cons_self c rest)
        · intro hr
          rw [hb1] at hr
          exact absurd hr (by simp)
      · have heq2 : find_best_snapshot_loop target (c :: rest) best =
            find_best_snapshot_loop target rest best' := by
          rw [heq, if_neg hd0]
        have IH := ih best' hzrest hwf'
        rw [heq2]
        refine ⟨IH.1, ?_, ?_, ?_, ?_⟩
        · intro c1 m hr c' hc' ts' hts' hst'
          rcases List.mem_cons.mp hc' with h | h
          · subst h
            rw [hts] at hts'
            simp only [Option.some.injEq] at hts'
            subst hts'
            obtain ⟨c2, m2, hb2, hm2⟩ := hcov hst'
            have := IH.2.2.1 c1 m hr c2 m2 hb2
            rw [← hdiff]
            omega
          · exact IH.2.1 c1 m hr c' h ts' hts' hst'
        · intro c1 m hr c0 m0 hb
          cases hb2 : best' with
          | none =>
            rw [hbest'] at hb2
            split at hb2
            · exact absurd hb2 (by simp)
            · rw [hb] at hb2; exact absurd hb2 (by simp)
          | some p =>
            obtain ⟨c2, m2⟩ := p
            have h1 := IH.2.2.1 c1 m hr c2 m2 hb2
            have h2 := hmono' c2 m2 hb2 c0 m0 hb
            omega
        · intro c1 m hr
          rcases IH.2.2.2.1 c1 m hr with h | h
          · rcases hprov' c1 m h with h' | h'
            · exact Or.inl h'
            · exact Or.inr (by rw [h']; exact List.mem_cons_self c rest)
          · exact Or.inr (List.mem_cons_of_mem c h)
        · intro hr
          have hb2 := (IH.2.2.2.2 hr).1
          have hrest := (IH.2.2.2.2 hr).2
          have hbnone : best = none := by
            rw [hbest'] at hb2
            split at hb2
            · exact absurd hb2 (by simp)
            · exact hb2
          refine ⟨hbnone, ?_⟩
          intro c' hc' ts' hts'
          rcases List.mem_cons.mp hc' with h | h
          · subst h
            intro hst'
            rw [hbest', hbnone] at hb2
            simp [betterThan, hst'] at hb2
          · exact hrest c' h ts' hts'

/-- C7 counterexample: with target day 0 and captures
`[(5 days, 200, "A"), (0 days, 404, "B"), (1 day, 200, "C")]` the finder
returns `"A"` (distance 5) because the scan breaks at the unsuccessful
exact-day capture `"B"`, even though the successful capture `"C"` has the
strictly smaller distance 1 — so the result is not minimal among
successful captures, and the early stop happened at a capture that was not
selected. -/
theorem c7_finder_counterexample :
    find_best_snapshot 0
        [⟨some 5, "200", "A"⟩, ⟨some 0, "404", "B"⟩, ⟨some 1, "200", "C"⟩] = some "A" ∧
    (⟨some 1, "200", "C"⟩ : Capture) ∈
        [(⟨some 5, "200", "A"⟩ : Capture), ⟨some 0, "404", "B"⟩, ⟨some 1, "200", "C"⟩] ∧
    (Capture.statuscode ⟨some 1, "200", "C"⟩ = "200") ∧
    |(1 : ℤ) - 0| < |(5 : ℤ) - 0| ∧ ("A" : String) ≠ "C" := by
  refine ⟨by decide, by decide, by decide, by decide, by decide⟩

/-- C7 (amended): provided every exact-day (distance-zero) capture in the
sequence has successful status — in particular whenever no exact-day capture
exists — the finder returns the archive URL of a successful capture whose
day distance to the target is minimal among all parseable successful
captures, and returns `None` exactly when there is no parseable successful
capture.  Without that proviso the scan may stop at an unsuccessful
exact-day capture and miss closer successful ones (see the
counterexample). -/
theorem c7_find_best_min (target : ℤ) (caps : List Capture)
    (hzero : ∀ c ∈ caps, ∀ ts, c.timestampDays = some ts →
      |ts - target| = 0 → c.statuscode = "200") :
    (∀ url, find_best_snapshot target caps = some url →
      ∃ c ∈ caps, ∃ ts, c.archiveUrl = url ∧ c.statuscode = "200" ∧
        c.timestampDays = some ts ∧
        ∀ c' ∈ caps, ∀ ts', c'.timestampDays = some ts' → c'.statuscode = "200" →
          |ts - target| ≤ |ts' - target|) ∧
    (find_best_snapshot target caps = none →
      ∀ c ∈ caps, ∀ ts, c.timestampDays = some ts → c.statuscode ≠ "200") := by
  have spec := find_best_loop_spec target caps none hzero (by simp)
  constructor
  · intro url hurl
    rw [find_best_snapshot] at hurl
    cases hl : find_best_snapshot_loop target caps none with
    | none => rw [hl] at hurl; exact absurd hurl (by simp)
    | some p =>
      obtain ⟨c, m⟩ := p
      rw [hl] at hurl
      simp at hurl
      obtain ⟨hst, ts, hts, hm⟩ := spec.1 c m hl
      have hmem : c ∈ caps := by
        rcases spec.2.2.2.1 c m hl with h | h
        · exact absurd h (by simp)
        · exact h
      refine ⟨c, hmem, ts, hurl, hst, hts, ?_⟩
      intro c' hc' ts' hts' hst'
      have := spec.2.1 c m hl c' hc' ts' hts' hst'
      omega
  · intro hnone
    rw [find_best_snapshot] at hnone
    cases hl : find_best_snapshot_loop target caps none with
    | none => exact (spec.2.2.2.2 hl).2
    | some p => rw [hl] at hnone; exact absurd hnone (by simp)

/-- C7 witness: the amended theorem applied to a concrete two-capture
sequence whose minimum-distance successful capture is `"X"`. -/
theorem c7_find_best_min_witness :
    ∃ c ∈ ([⟨some 2, "200", "X"⟩, ⟨some 7, "404", "Y"⟩] : List Capture), ∃ ts,
      c.archiveUrl = "X" ∧ c.statuscode = "200" ∧ c.timestampDays = some ts ∧
      ∀ c' ∈ ([⟨some 2, "200", "X"⟩, ⟨some 7, "404", "Y"⟩] : List Capture), ∀ ts',
        c'.timestampDays = some ts' → c'.statuscode = "200" →
          |ts - (0 : ℤ)| ≤ |ts' - 0| :=
  (c7_find_best_min 0 [⟨some 2, "200", "X"⟩, ⟨some 7, "404", "Y"⟩]
    (by
      intro c hc ts hts h0
      fin_cases hc <;> simp_all)).1 "X" (by decide)

theorem main_pass_spec (o : ℕ → String → Bool) (gen : ℕ) :
    ∀ (records : List String) (s : DLState),
    (main_pass o gen records s).failed
        = s.failed + (records.filter (fun r => !(o gen r))).length ∧
    (main_pass o gen records s).successful
        = s.successful + (records.filter (fun r => o gen r)).length ∧
    (main_pass o gen records s).failedDownloads
        = s.failedDownloads ++ records.filter (fun r => !(o gen r)) ∧
    (main_pass o gen records s).delay = s.delay ∧
    (main_pass o gen records s).retryPasses = s.retryPasses ∧
    (main_pass o gen records s).retryLog = s.retryLog := by
  intro records
  induction records with
  | nil => intro s; simp [main_pass]
  | cons r rest ih =>
    intro s
    by_cases h : o gen r = true
    · have heq : main_pass o gen (r :: rest) s =
          main_pass o gen rest { s with successful := s.successful + 1 } := by
        simp [main_pass, h]
      rw [heq]
      have IH := ih { s with successful := s.successful + 1 }
      simp [h, IH.1, IH.2.1, IH.2.2.1, IH.2.2.2.1, IH.2.2.2.2.1, IH.2.2.2.2.2]
      omega
    · have hb : o gen r = false := by simpa using h
      have heq : main_pass o gen (r :: rest) s =
          main_pass o gen rest
            { s with failed := s.failed + 1,
                     failedDownloads := s.failedDownloads ++ [r] } := by
        simp [main_pass, hb]
      rw [heq]
      have IH := ih { s with failed := s.failed + 1,
                             failedDownloads := s.failedDownloads ++ [r] }
      simp [hb, IH.1, IH.2.1, IH.2.2.1, IH.2.2.2.1, IH.2.2.2.2.1, IH.2.2.2.2.2]
      omega

theorem filter_existing_spec (ex : String → Bool) :
    ∀ (records : List String) (s : DLState),
    (filter_existing ex records s).2.failed = s.failed ∧
    (filter_existing ex records s).2.successful = s.successful ∧
    (filter_existing ex records s).2.failedDownloads = s.failedDownloads ∧
    (filter_existing ex records s).2.delay = s.delay ∧
    (filter_existing ex records s).2.retryPasses = s.retryPasses ∧
    (filter_existing ex records s).2.retryLog = s.retryLog := by
  have key : ∀ (records : List String) (acc : List String × DLState),
      (records.foldl (filter_step ex) acc).2.failed = acc.2.failed ∧
      (records.foldl (filter_step ex) acc).2.successful = acc.2.successful ∧
      (records.foldl (filter_step ex) acc).2.failedDownloads = acc.2.failedDownloads ∧
      (records.foldl (filter_step ex) acc).2.delay = acc.2.delay ∧
      (records.foldl (filter_step ex) acc).2.retryPasses = acc.2.retryPasses ∧
      (records.foldl (filter_step ex) acc).2.retryLog = acc.2.retryLog := by
    intro records
    induction records with
    | nil => intro acc; simp
    | cons r rest ih =>
      intro acc
      by_cases h : ex r = true
      · simp only [List.foldl_cons, filter_step, h, if_true]
        simpa using ih _
      · have hb : ex r = false := by simpa using h
        simp only [List.foldl_cons, filter_step, hb]
        simpa using ih _
  intro records s
  exact key records ([], s)

theorem batch_pre_fields (ex : String → Bool) (resumeMode : Bool)
    (records : List String) (s : DLState) :
    ((if resumeMode then filter_existing ex records s else (records, s)).2).failed = s.failed ∧
    ((if resumeMode then filter_existing ex records s else (records, s)).2).successful = s.successful ∧
    ((if resumeMode then filter_existing ex records s else (records, s)).2).failedDownloads = s.failedDownloads ∧
    ((if resumeMode then filter_existing ex records s else (records, s)).2).delay = s.delay ∧
    ((if resumeMode then filter_existing ex records s else (records, s)).2).retryPasses = s.retryPasses ∧
    ((if resumeMode then filter_existing ex records s else (records, s)).2).retryLog = s.retryLog := by
  cases resumeMode
  · simp
  · simpa using filter_existing_spec ex records s

theorem batch_delay_eq (o : ℕ → String → Bool) (ex : String → Bool) (resumeMode : Bool) :
    ∀ (fuel gen : ℕ) (records : List String) (s : DLState),
    (download_snapshot_batch o ex resumeMode gen fuel records s).delay = s.delay := by
  intro fuel gen records s
  rw [download_snapshot_batch]
  have hpre := batch_pre_fields ex resumeMode records s
  set p := (if resumeMode then filter_existing ex records s else (records, s)) with hp
  by_cases h1 : p.1 = []
  · rw [if_pos h1]; exact hpre.2.2.2.1
  · rw [if_neg h1]
    have hmp := main_pass_spec o gen p.1 p.2
    by_cases h2 : (main_pass o gen p.1 p.2).failedDownloads = []
    · rw [if_pos h2]
      rw [hmp.2.2.2.1, hpre.2.2.2.1]
    · rw [if_neg h2]
      cases fuel with
      | zero => rw [hmp.2.2.2.1, hpre.2.2.2.1]
      | succ fuel' =>
        show (restore_delay
          (download_snapshot_batch o ex resumeMode (gen + 1) fuel'
            (main_pass o gen p.1 p.2).failedDownloads
            (retry_state (main_pass o gen p.1 p.2)))
          (main_pass o gen p.1 p.2).delay).delay = s.delay
        have hrd : ∀ (a : DLState) (q : ℚ), (restore_delay a q).delay = q :=
          fun _ _ => rfl
        rw [hrd, hmp.2.2.2.1, hpre.2.2.2.1]

theorem batch_failed_mono (o : ℕ → String → Bool) (ex : String → Bool) (resumeMode : Bool) :
    ∀ (fuel gen : ℕ) (records : List String) (s : DLState),
    s.failed ≤ (download_snapshot_batch o ex resumeMode gen fuel records s).failed := by
  intro fuel
  induction fuel with
  | zero =>
    intro gen records s
    rw [download_snapshot_batch]
    have hpre := batch_pre_fields ex resumeMode records s
    set p := (if resumeMode then filter_existing ex records s else (records, s)) with hp
    by_cases h1 : p.1 = []
    · rw [if_pos h1, hpre.1]
    · rw [if_neg h1]
      have hmp := main_pass_spec o gen p.1 p.2
      by_cases h2 : (main_pass o gen p.1 p.2).failedDownloads = []
      · rw [if_pos h2, hmp.1, hpre.1]; omega
      · rw [if_neg h2]
        show s.failed ≤ (main_pass o gen p.1 p.2).failed
        rw [hmp.1, hpre.1]; omega
  | succ fuel' ih =>
    intro gen records s
    rw [download_snapshot_batch]
    have hpre := batch_pre_fields ex resumeMode records s
    set p := (if resumeMode then filter_existing ex records s else (records, s)) with hp
    by_cases h1 : p.1 = []
    · rw [if_pos h1, hpre.1]
    · rw [if_neg h1]
      have hmp := main_pass_spec o gen p.1 p.2
      by_cases h2 : (main_pass o gen p.1 p.2).failedDownloads = []
      · rw [if_pos h2, hmp.1, hpre.1]; omega
      · rw [if_neg h2]
        set s2 := main_pass o gen p.1 p.2 with hs2
        show (restore_delay (download_snapshot_batch o ex resumeMode (gen + 1) fuel'
          s2.failedDownloads (retry_state s2)) s2.delay).failed ≥ s.failed
        have hih := ih (gen + 1) s2.failedDownloads (retry_state s2)
        have hrs : (retry_state s2).failed = s2.failed := rfl
        have hrd : ∀ a q, (restore_delay a q).failed = a.failed := fun _ _ => rfl
        rw [hrd]
        have hs2f : s.failed ≤ s2.failed := by rw [hs2, hmp.1, hpre.1]; omega
        omega

theorem batch_retryPasses_mono (o : ℕ → String → Bool) (ex : String → Bool)
    (resumeMode : Bool) :
    ∀ (fuel gen : ℕ) (records : List String) (s : DLState),
    s.retryPasses ≤ (download_snapshot_batch o ex resumeMode gen fuel records s).retryPasses := by
  intro fuel
  induction fuel with
  | zero =>
    intro gen records s
    rw [download_snapshot_batch]
    have hpre := batch_pre_fields ex resumeMode records s
    set p := (if resumeMode then filter_existing ex records s else (records, s)) with hp
    by_cases h1 : p.1 = []
    · rw [if_pos h1, hpre.2.2.2.2.1]
    · rw [if_neg h1]
      have hmp := main_pass_spec o gen p.1 p.2
      by_cases h2 : (main_pass o gen p.1 p.2).failedDownloads = []
      · rw [if_pos h2, hmp.2.2.2.2.1, hpre.2.2.2.2.1]
      · rw [if_neg h2]
        show s.retryPasses ≤ (main_pass o gen p.1 p.2).retryPasses
        rw [hmp.2.2.2.2.1, hpre.2.2.2.2.1]
  | succ fuel' ih =>
    intro gen records s
    rw [download_snapshot_batch]
    have hpre := batch_pre_fields ex resumeMode records s
    set p := (if resumeMode then filter_existing ex records s else (records, s)) with hp
    by_cases h1 : p.1 = []
    · rw [if_pos h1, hpre.2.2.2.2.1]
    · rw [if_neg h1]
      have hmp := main_pass_spec o gen p.1 p.2
      by_cases h2 : (main_pass o gen p.1 p.2).failedDownloads = []
      · rw [if_pos h2, hmp.2.2.2.2.1, hpre.2.2.2.2.1]
      · rw [if_neg h2]
        set s2 := main_pass o gen p.1 p.2 with hs2
        show s.retryPasses ≤ (restore_delay (download_snapshot_batch o ex resumeMode
          (gen + 1) fuel' s2.failedDownloads (retry_state s2)) s2.delay).retryPasses
        have hih := ih (gen + 1) s2.failedDownloads (retry_state s2)
        have hrs : (retry_state s2).retryPasses = s2.retryPasses + 1 := rfl
        have hrd : ∀ a q, (restore_delay a q).retryPasses = a.retryPasses := fun _ _ => rfl
        rw [hrd]
        have hs2f : s.retryPasses = s2.retryPasses := by
          rw [hs2, hmp.2.2.2.2.1, hpre.2.2.2.2.1]
        omega

theorem batch_retryLog_extends (o : ℕ → String → Bool) (ex : String → Bool)
    (resumeMode : Bool) :
    ∀ (fuel gen : ℕ) (records : List String) (s : DLState),
    ∃ more, (download_snapshot_batch o ex resumeMode gen fuel records s).retryLog
      = s.retryLog ++ more := by
  intro fuel
  induction fuel with
  | zero =>
    intro gen records s
    rw [download_snapshot_batch]
    have hpre := batch_pre_fields ex resumeMode records s
    set p := (if resumeMode then filter_existing ex records s else (records, s)) with hp
    by_cases h1 : p.1 = []
    · rw [if_pos h1, hpre.2.2.2.2.2]; exact ⟨[], by simp⟩
    · rw [if_neg h1]
      have hmp := main_pass_spec o gen p.1 p.2
      by_cases h2 : (main_pass o gen p.1 p.2).failedDownloads = []
      · rw [if_pos h2, hmp.2.2.2.2.2, hpre.2.2.2.2.2]; exact ⟨[], by simp⟩
      · rw [if_neg h2]
        refine ⟨[], ?_⟩
        show (main_pass o gen p.1 p.2).retryLog = s.retryLog ++ []
        rw [hmp.2.2.2.2.2, hpre.2.2.2.2.2]; simp
  | succ fuel' ih =>
    intro gen records s
    rw [download_snapshot_batch]
    have hpre := batch_pre_fields ex resumeMode records s
    set p := (if resumeMode then filter_existing ex records s else (records, s)) with hp
    by_cases h1 : p.1 = []
    · rw [if_pos h1, hpre.2.2.2.2.2]; exact ⟨[], by simp⟩
    · rw [if_neg h1]
      have hmp := main_pass_spec o gen p.1 p.2
      by_cases h2 : (main_pass o gen p.1 p.2).failedDownloads = []
      · rw [if_pos h2, hmp.2.2.2.2.2, hpre.2.2.2.2.2]; exact ⟨[], by simp⟩
      · rw [if_neg h2]
        set s2 := main_pass o gen p.1 p.2 with hs2
        obtain ⟨more, hmore⟩ := ih (gen + 1) s2.failedDownloads (retry_state s2)
        refine ⟨[(s2.failedDownloads, 2 * s2.delay)] ++ more, ?_⟩
        show (restore_delay (download_snapshot_batch o ex resumeMode (gen + 1) fuel'
          s2.failedDownloads (retry_state s2)) s2.delay).retryLog
          = s.retryLog ++ ([(s2.failedDownloads, 2 * s2.delay)] ++ more)
        have hrd : ∀ a q, (restore_delay a q).retryLog = a.retryLog := fun _ _ => rfl
        rw [hrd, hmore]
        have hrs : (retry_state s2).retryLog
            = s2.retryLog ++ [(s2.failedDownloads, 2 * s2.delay)] := rfl
        rw [hrs]
        rw [hs2, hmp.2.2.2.2.2, hpre.2.2.2.2.2]
        simp

theorem batch_unfold_retry (o : ℕ → String → Bool) (ex : String → Bool)
    (gen fuel' : ℕ) (records : List String) (s : DLState)
    (hrec : records ≠ []) (hfd : (main_pass o gen records s).failedDownloads ≠ []) :
    download_snapshot_batch o ex false gen (fuel' + 1) records s =
      restore_delay
        (download_snapshot_batch o ex false (gen + 1) fuel'
          (main_pass o gen records s).failedDownloads
          (retry_state (main_pass o gen records s)))
        (main_pass o gen records s).delay := by
  rw [download_snapshot_batch]
  simp only []
  have h0 : (if false = true then filter_existing ex records s else (records, s))
      = (records, s) := rfl
  rw [h0]
  have h1 : ((records, s) : List String × DLState).1 = records := rfl
  have h2 : ((records, s) : List String × DLState).2 = s := rfl
  rw [h1, h2, if_neg hrec, if_neg hfd]


theorem batch_enters_retry (o : ℕ → String → Bool) (ex : String → Bool)
    (gen fuel : ℕ) (records : List String) (s : DLState)
    (hrec : records ≠ []) (hfd : s.failedDownloads = [])
    (hF : records.filter (fun r => !(o gen r)) ≠ [])
    (hfuel : 1 ≤ fuel) :
    s.retryPasses + 1 ≤
      (download_snapshot_batch o ex false gen fuel records s).retryPasses := by
  obtain ⟨fuel', rfl⟩ : ∃ f, fuel = f + 1 := ⟨fuel - 1, by omega⟩
  have hmp := main_pass_spec o gen records s
  have hfd2 : (main_pass o gen records s).failedDownloads ≠ [] := by
    rw [hmp.2.2.1, hfd]; simpa using hF
  rw [batch_unfold_retry o ex gen fuel' records s hrec hfd2]
  have hmono := batch_retryPasses_mono o ex false fuel' (gen + 1)
    (main_pass o gen records s).failedDownloads
    (retry_state (main_pass o gen records s))
  have hrd : ∀ (a : DLState) (q : ℚ), (restore_delay a q).retryPasses = a.retryPasses :=
    fun _ _ => rfl
  have hrs : (retry_state (main_pass o gen records s)).retryPasses
      = (main_pass o gen records s).retryPasses + 1 := rfl
  rw [hrd]
  rw [hrs, hmp.2.2.2.2.1] at hmono
  omega

/-- C3 (amended): when the main pass leaves a non-empty retry queue, a retry
pass is invoked with exactly the queued records under a doubled delay, and
the configured delay is restored once the batch call returns; but the retry
is not limited to one generation: if records fail again during the retry,
the recursive batch call performs a further retry pass (given remaining
fuel; the source recurses without a cap). -/
theorem c3_retry_structure (o : ℕ → String → Bool) (ex : String → Bool)
    (gen fuel' : ℕ) (records : List String) (s : DLState)
    (hrec : records ≠ []) (hfd : s.failedDownloads = [])
    (hF : records.filter (fun r => !(o gen r)) ≠ []) :
    (download_snapshot_batch o ex false gen (fuel' + 1) records s).delay = s.delay ∧
    (∃ more, (download_snapshot_batch o ex false gen (fuel' + 1) records s).retryLog
      = s.retryLog ++ [(records.filter (fun r => !(o gen r)), 2 * s.delay)] ++ more) ∧
    ((records.filter (fun r => !(o gen r))).filter (fun r => !(o (gen + 1) r)) ≠ [] →
      1 ≤ fuel' →
      s.retryPasses + 2 ≤
        (download_snapshot_batch o ex false gen (fuel' + 1) records s).retryPasses) := by
  have hmp := main_pass_spec o gen records s
  have hfd2 : (main_pass o gen records s).failedDownloads ≠ [] := by
    rw [hmp.2.2.1, hfd]; simpa using hF
  have hF2 : (main_pass o gen records s).failedDownloads
      = records.filter (fun r => !(o gen r)) := by
    rw [hmp.2.2.1, hfd]; simp
  have hrdL : ∀ (a : DLState) (q : ℚ), (restore_delay a q).retryLog = a.retryLog :=
    fun _ _ => rfl
  have hrdP : ∀ (a : DLState) (q : ℚ), (restore_delay a q).retryPasses = a.retryPasses :=
    fun _ _ => rfl
  refine ⟨batch_delay_eq o ex false (fuel' + 1) gen records s, ?_, ?_⟩
  · rw [batch_unfold_retry o ex gen fuel' records s hrec hfd2]
    obtain ⟨more, hmore⟩ := batch_retryLog_extends o ex false fuel' (gen + 1)
      (main_pass o gen records s).failedDownloads
      (retry_state (main_pass o gen records s))
    refine ⟨more, ?_⟩
    rw [hrdL, hmore]
    have hrs : (retry_state (main_pass o gen records s)).retryLog
        = (main_pass o gen records s).retryLog ++
          [((main_pass o gen records s).failedDownloads,
            2 * (main_pass o gen records s).delay)] := rfl
    rw [hrs, hmp.2.2.2.2.2, hmp.2.2.2.1, hF2]
  · intro hG hfuel'
    rw [batch_unfold_retry o ex gen fuel' records s hrec hfd2]
    have hstep := batch_enters_retry o ex (gen + 1) fuel'
      (main_pass o gen records s).failedDownloads
      (retry_state (main_pass o gen records s))
      (by rw [hF2]; simpa using hF) rfl (by rw [hF2]; simpa using hG) hfuel'
    have hrs : (retry_state (main_pass o gen records s)).retryPasses
        = (main_pass o gen records s).retryPasses + 1 := rfl
    rw [hrdP]
    rw [hrs, hmp.2.2.2.2.1] at hstep
    omega

theorem batch_nil (o : ℕ → String → Bool) (ex : String → Bool) (gen fuel : ℕ)
    (s : DLState) :
    download_snapshot_batch o ex false gen fuel [] s = s := by
  rw [download_snapshot_batch]
  rfl

theorem batch_no_retry (o : ℕ → String → Bool) (ex : String → Bool) (gen fuel : ℕ)
    (records : List String) (s : DLState) (hrec : records ≠ [])
    (hfd : (main_pass o gen records s).failedDownloads = []) :
    download_snapshot_batch o ex false gen fuel records s
      = main_pass o gen records s := by
  rw [download_snapshot_batch]
  simp only []
  have h0 : (if false = true then filter_existing ex records s else (records, s))
      = (records, s) := rfl
  rw [h0]
  have h1 : ((records, s) : List String × DLState).1 = records := rfl
  have h2 : ((records, s) : List String × DLState).2 = s := rfl
  rw [h1, h2, if_neg hrec, if_pos hfd]

theorem batch_fuel_zero (o : ℕ → String → Bool) (ex : String → Bool) (gen : ℕ)
    (records : List String) (s : DLState) (hrec : records ≠ []) :
    download_snapshot_batch o ex false gen 0 records s
      = main_pass o gen records s := by
  rw [download_snapshot_batch]
  simp only []
  have h0 : (if false = true then filter_existing ex records s else (records, s))
      = (records, s) := rfl
  rw [h0]
  have h1 : ((records, s) : List String × DLState).1 = records := rfl
  have h2 : ((records, s) : List String × DLState).2 = s := rfl
  rw [h1, h2, if_neg hrec]
  by_cases hfd : (main_pass o gen records s).failedDownloads = []
  · rw [if_pos hfd]
  · rw [if_neg hfd]

/-- C4 (amended): the `failed` counter never decreases across the retry
phase: the final count reported by the batch routine is at least the count at
the end of the main pass (each record that fails again during a retry
generation increments it further); and in the 5-record scenario where 2
records fail and 3 succeed, the main pass ends with `successful = 3` and
`failed = 2`. -/
theorem c4_failed_monotone :
    (∀ (o : ℕ → String → Bool) (ex : String → Bool) (gen fuel : ℕ)
        (records : List String) (s : DLState),
      (main_pass o gen records s).failed ≤
        (download_snapshot_batch o ex false gen fuel records s).failed) ∧
    (main_pass (fun g r => if r = "d" || r = "e" then decide (2 ≤ g) else true) 0
      ["a", "b", "c", "d", "e"] (dlInit 1)).successful = 3 ∧
    (main_pass (fun g r => if r = "d" || r = "e" then decide (2 ≤ g) else true) 0
      ["a", "b", "c", "d", "e"] (dlInit 1)).failed = 2 := by
  refine ⟨?_, by decide, by decide⟩
  intro o ex gen fuel records s
  by_cases hrec : records = []
  · subst hrec
    rw [batch_nil]
    have : main_pass o gen [] s = s := rfl
    rw [this]
  · by_cases hfd : (main_pass o gen records s).failedDownloads = []
    · rw [batch_no_retry o ex gen fuel records s hrec hfd]
    · cases fuel with
      | zero => rw [batch_fuel_zero o ex gen records s hrec]
      | succ fuel' =>
        rw [batch_unfold_retry o ex gen fuel' records s hrec hfd]
        have hrd : ∀ (a : DLState) (q : ℚ), (restore_delay a q).failed = a.failed :=
          fun _ _ => rfl
        rw [hrd]
        have hmono := batch_failed_mono o ex false fuel' (gen + 1)
          (main_pass o gen records s).failedDownloads
          (retry_state (main_pass o gen records s))
        have hrs : (retry_state (main_pass o gen records s)).failed
            = (main_pass o gen records s).failed := rfl
        rw [hrs] at hmono
        exact hmono

/-- C4 counterexample: in the 5-record scenario (records `d`, `e` return
HTTP 500 in the main pass and in the first retry generation, succeeding only
in the second), the main pass ends with `failed = 2`, but the final summary
reports `failed = 4` — the cumulative counter grew across the retry pass, so
it is not monotonically non-increasing. -/
theorem c4_failed_counterexample :
    (main_pass (fun g r => if r = "d" || r = "e" then decide (2 ≤ g) else true) 0
      ["a", "b", "c", "d", "e"] (dlInit 1)).failed = 2 ∧
    (download_snapshot_batch
      (fun g r => if r = "d" || r = "e" then decide (2 ≤ g) else true)
      (fun _ => false) false 0 3 ["a", "b", "c", "d", "e"] (dlInit 1)).failed = 4 ∧
    ¬ ((4 : ℕ) ≤ 2) := by
  refine ⟨by decide, by decide, by decide⟩

/-- C3 counterexample: a single record that fails in the main pass and in the
first retry generation causes a second retry generation — `retryPasses = 2`,
not exactly one: the batch routine invoked on the retry queue re-enters the
retry logic for records that fail again. -/
theorem c3_retry_counterexample :
    (download_snapshot_batch (fun g _ => decide (2 ≤ g)) (fun _ => false) false 0 3
      ["r"] (dlInit 1)).retryPasses = 2 ∧ (2 : ℕ) ≠ 1 := by
  refine ⟨by decide, by decide⟩

/-- C3 witness: the retry-structure theorem applied to one record failing in
generations 0 and 1 and succeeding in generation 2. -/
theorem c3_retry_structure_witness :
    (download_snapshot_batch (fun g _ => decide (2 ≤ g)) (fun _ => false) false 0 (2 + 1)
      ["r"] (dlInit 1)).delay = (dlInit 1).delay ∧
    (∃ more, (download_snapshot_batch (fun g _ => decide (2 ≤ g)) (fun _ => false) false 0
        (2 + 1) ["r"] (dlInit 1)).retryLog
      = (dlInit 1).retryLog ++
          [(["r"].filter (fun r => !((fun (g : ℕ) (_ : String) => decide (2 ≤ g)) 0 r)),
            2 * (dlInit 1).delay)] ++ more) ∧
    ((["r"].filter (fun r => !((fun (g : ℕ) (_ : String) => decide (2 ≤ g)) 0 r))).filter
        (fun r => !((fun (g : ℕ) (_ : String) => decide (2 ≤ g)) (0 + 1) r)) ≠ [] →
      1 ≤ 2 →
      (dlInit 1).retryPasses + 2 ≤
        (download_snapshot_batch (fun g _ => decide (2 ≤ g)) (fun _ => false) false 0
          (2 + 1) ["r"] (dlInit 1)).retryPasses) :=
  c3_retry_structure (fun g _ => decide (2 ≤ g)) (fun _ => false) 0 2 ["r"] (dlInit 1)
    (by decide) rfl (by decide)

theorem inv_mark_visited (cfg : CrawlerConfig) (s : CrawlerState) (url : String)
    (h : CrawlInv cfg s) (hnv : url ∉ s.visited) :
    CrawlInv cfg (mark_visited s url) := by
  obtain ⟨h1, h2, h3⟩ := h
  refine ⟨h1, ?_, ?_⟩
  · have hnt : url ∉ s.trace := fun hmem => hnv (h3 url hmem)
    simp [mark_visited, List.nodup_append, h2, hnt]
  · intro u hu
    simp only [mark_visited] at hu ⊢
    rcases List.mem_append.mp hu with h | h
    · exact List.mem_cons_of_mem _ (h3 u h)
    · simp at h
      rw [h]
      exact List.mem_cons_self _ _

theorem inv_add_found (cfg : CrawlerConfig) (s : CrawlerState) (url : String)
    (fs' : List (List String)) (h : CrawlInv cfg (mark_visited s url))
    (hlt : s.found.length < cfg.maxPages) :
    CrawlInv cfg (add_found (mark_visited s url) fs' url) := by
  obtain ⟨_, h2, h3⟩ := h
  refine ⟨?_, h2, h3⟩
  show (s.found ++ [url]).length ≤ cfg.maxPages
  simp only [List.length_append, List.length_cons, List.length_nil]
  omega


theorem crawl_step_inv (o : String → FetchResult) (cfg : CrawlerConfig)
    (recurse : List String → CrawlerState → CrawlerState)
    (hrec : ∀ links s', CrawlInv cfg s' → CrawlInv cfg (recurse links s'))
    (depth : ℕ) (url : String) (s : CrawlerState) (hinv : CrawlInv cfg s) :
    CrawlInv cfg (crawl_step o cfg recurse depth url s) := by
  rw [crawl_step]
  by_cases hg : cfg.maxDepth < depth ∨ cfg.maxPages ≤ s.found.length ∨ url ∈ s.visited
  · rw [if_pos hg]; exact hinv
  · rw [if_neg hg]
    push_neg at hg
    have hs1 := inv_mark_visited cfg s url hinv hg.2.2
    have hlt : s.found.length < cfg.maxPages := hg.2.1
    by_cases hex : isExcluded cfg url = true
    · rw [if_pos hex]; exact hs1
    · rw [if_neg hex]
      by_cases hres : (cfg.resumeMode &&
          page_exists cfg.md5hex cfg.base (mark_visited s url).fs url) = true
      · rw [if_pos hres]; exact hs1
      · rw [if_neg hres]
        cases o url with
        | exc msg => exact hs1
        | resp status links =>
          simp only []
          by_cases h404 : status = 404
          · rw [if_pos h404]; exact hs1
          · rw [if_neg h404]
            by_cases h200 : status ≠ 200
            · rw [if_pos h200]; exact hs1
            · rw [if_neg h200]
              cases hsave : save_page_content cfg.md5hex cfg.base
                  (mark_visited s url).fs url "" with
              | error e => exact hs1
              | ok pr =>
                obtain ⟨fs', pth⟩ := pr
                simp only []
                have hs2 := inv_add_found cfg s url fs' hs1 hlt
                by_cases hrc : depth < cfg.maxDepth ∧
                    (add_found (mark_visited s url) fs' url).found.length < cfg.maxPages
                · rw [if_pos hrc]
                  exact hrec links _ hs2
                · rw [if_neg hrc]; exact hs2

theorem crawl_inv (o : String → FetchResult) (cfg : CrawlerConfig) : ∀ fuel : ℕ,
    (∀ depth url s, CrawlInv cfg s →
      CrawlInv cfg (crawl_recursive o cfg fuel depth url s)) ∧
    (∀ depth links s, CrawlInv cfg s →
      CrawlInv cfg (crawl_links o cfg fuel depth links s)) := by
  have hlist : ∀ fuel : ℕ,
      (∀ depth url s, CrawlInv cfg s →
        CrawlInv cfg (crawl_recursive o cfg fuel depth url s)) →
      (∀ depth links s, CrawlInv cfg s →
        CrawlInv cfg (crawl_links o cfg fuel depth links s)) := by
    intro fuel hone depth links
    induction links with
    | nil =>
      intro s hinv
      rw [crawl_links]
      exact hinv
    | cons l rest ih2 =>
      intro s hinv
      rw [crawl_links]
      by_cases hb : cfg.maxPages ≤ s.found.length
      · rw [if_pos hb]; exact hinv
      · rw [if_neg hb]
        exact ih2 _ (hone depth l s hinv)
  intro fuel
  induction fuel with
  | zero =>
    have hone : ∀ depth url s, CrawlInv cfg s →
        CrawlInv cfg (crawl_recursive o cfg 0 depth url s) := by
      intro depth url s hinv
      rw [crawl_recursive]
      exact crawl_step_inv o cfg _ (fun links s' h => h) depth url s hinv
    exact ⟨hone, hlist 0 hone⟩
  | succ n ihn =>
    have hone : ∀ depth url s, CrawlInv cfg s →
        CrawlInv cfg (crawl_recursive o cfg (n + 1) depth url s) := by
      intro depth url s hinv
      rw [crawl_recursive]
      exact crawl_step_inv o cfg _
        (fun links s' h => hlist n ihn.1 (depth + 1) links s' h) depth url s hinv
    exact ⟨hone, hlist (n + 1) hone⟩

theorem crawl_seeds_inv (o : String → FetchResult) (cfg : CrawlerConfig) (fuel : ℕ) :
    ∀ (seeds : List String) (s : CrawlerState), CrawlInv cfg s →
      CrawlInv cfg (crawl_seeds o cfg fuel seeds s) := by
  intro seeds
  induction seeds with
  | nil => intro s hinv; rw [crawl_seeds]; exact hinv
  | cons u rest ih =>
    intro s hinv
    rw [crawl_seeds]
    by_cases hb : cfg.maxPages ≤ s.found.length
    · rw [if_pos hb]; exact hinv
    · rw [if_neg hb]
      apply ih
      by_cases hv : u ∈ s.visited
      · rw [if_pos hv]; exact hinv
      · rw [if_neg hv]; exact (crawl_inv o cfg fuel).1 0 u s hinv

/-- C2: for every crawl run (any fetch oracle, configuration, fuel, start
URL and pre-existing storage), starting from a fresh in-memory state the
full priority-seeded traversal yields at most `maxPages` found pages, the
visit trace contains no URL twice, and every visited URL ends up in the
`visited` set — a URL already in `visited` is never fetched or processed a
second time. -/
theorem c2_crawl_bounds (o : String → FetchResult) (cfg : CrawlerConfig) (fuel : ℕ)
    (start : String) (fs0 : List (List String)) :
    (crawl_with_priority o cfg fuel start (initCrawlerState fs0)).found.length
        ≤ cfg.maxPages ∧
    (crawl_with_priority o cfg fuel start (initCrawlerState fs0)).trace.Nodup ∧
    (∀ u ∈ (crawl_with_priority o cfg fuel start (initCrawlerState fs0)).trace,
      u ∈ (crawl_with_priority o cfg fuel start (initCrawlerState fs0)).visited) := by
  have hinv0 : CrawlInv cfg (initCrawlerState fs0) := by
    refine ⟨by simp [initCrawlerState], by simp [initCrawlerState], ?_⟩
    intro u hu
    simp [initCrawlerState] at hu
  have hres : CrawlInv cfg (crawl_with_priority o cfg fuel start (initCrawlerState fs0)) := by
    rw [crawl_with_priority]
    cases hx : extract_timestamp_and_original start with
    | mk a b =>
      cases a with
      | none => exact hinv0
      | some t =>
        cases b with
        | none => exact hinv0
        | some bu =>
          simp only []
          have hseed := crawl_seeds_inv o cfg fuel
            (start :: priority_paths_default.map
              (fun p => build_archive_url t (bu ++ p)))
            (initCrawlerState fs0) hinv0
          by_cases hb :
              (crawl_seeds o cfg fuel
                (start :: priority_paths_default.map
                  (fun p => build_archive_url t (bu ++ p)))
                (initCrawlerState fs0)).found.length < cfg.maxPages
          · rw [if_pos hb]
            exact (crawl_inv o cfg fuel).1 0 start _ hseed
          · rw [if_neg hb]
            exact hseed
  exact hres

theorem save_invalid_url (url : String)
    (hex : extract_timestamp_and_original url = (none, none))
    (md5hex : List Char → List Char) (base : String) (fs : List (List String))
    (content : String) :
    save_page_content md5hex base fs url content
      = Except.error ("Invalid archive URL: " ++ url) := by
  rw [save_page_content, hex]

theorem page_exists_invalid_url (url : String)
    (hex : extract_timestamp_and_original url = (none, none))
    (md5hex : List Char → List Char) (base : String) (fs : List (List String)) :
    page_exists md5hex base fs url = false := by
  rw [page_exists, hex]

theorem crawl_records_invalid (o : String → FetchResult) (cfg : CrawlerConfig)
    (fuel depth : ℕ) (url : String) (s : CrawlerState) (links : List String)
    (hex : extract_timestamp_and_original url = (none, none))
    (hdepth : depth ≤ cfg.maxDepth) (hpages : s.found.length < cfg.maxPages)
    (hnv : url ∉ s.visited) (hexcl : isExcluded cfg url = false)
    (ho : o url = FetchResult.resp 200 links) :
    crawl_recursive o cfg fuel depth url s
      = add_failure (mark_visited s url)
          ⟨url, "Invalid archive URL: " ++ url, none, some "UnexpectedException", depth⟩ := by
  rw [crawl_recursive, crawl_step]
  have hg : ¬ (cfg.maxDepth < depth ∨ cfg.maxPages ≤ s.found.length ∨ url ∈ s.visited) := by
    push_neg
    exact ⟨by omega, by omega, hnv⟩
  rw [if_neg hg]
  rw [if_neg (by simp [hexcl] : ¬ isExcluded cfg url = true)]
  have hpe := page_exists_invalid_url url hex cfg.md5hex cfg.base (mark_visited s url).fs
  rw [if_neg (by simp [hpe] : ¬ (cfg.resumeMode &&
    page_exists cfg.md5hex cfg.base (mark_visited s url).fs url) = true)]
  rw [ho]
  simp only []
  rw [if_neg (by omega : ¬ (200 : ℕ) = 404)]
  rw [if_neg (by simp : ¬ (200 : ℕ) ≠ 200)]
  rw [save_invalid_url url hex cfg.md5hex cfg.base (mark_visited s url).fs ""]

/-- C5 (amended): when an archive URL fails to decompose, the Storage
Layer's save does raise the hard function-local `ValueError`
(`Except.error`); but the crawler's catch-all exception handler converts
that error into an entry of the `failed_urls` FailureRecord list tagged
`UnexpectedException` — the error does not cross the crawler boundary as a
hard failure. -/
theorem c5_invalid_url_failure (url : String)
    (hex : extract_timestamp_and_original url = (none, none)) :
    (∀ (md5hex : List Char → List Char) (base : String) (fs : List (List String))
        (content : String),
      save_page_content md5hex base fs url content
        = Except.error ("Invalid archive URL: " ++ url)) ∧
    (∀ (o : String → FetchResult) (cfg : CrawlerConfig) (fuel depth : ℕ)
        (s : CrawlerState) (links : List String),
      depth ≤ cfg.maxDepth → s.found.length < cfg.maxPages → url ∉ s.visited →
      isExcluded cfg url = false → o url = FetchResult.resp 200 links →
      (crawl_recursive o cfg fuel depth url s).failed
        = s.failed ++
            [⟨url, "Invalid archive URL: " ++ url, none, some "UnexpectedException", depth⟩]) := by
  refine ⟨save_invalid_url url hex, ?_⟩
  intro o cfg fuel depth s links hdepth hpages hnv hexcl ho
  rw [crawl_records_invalid o cfg fuel depth url s links hex hdepth hpages hnv hexcl ho]
  rfl

/-- C5 counterexample: for the archive URL
`https://web.archive.org/web/abc/https://example.com/` (it passes
`is_archive_url` but has no 14-digit timestamp, so decomposition fails),
a crawl from the fresh state ends with that URL recorded in the crawler's
FailureRecord list — contradicting the claim that the crawler never
converts the storage error into a failure entry. -/
theorem c5_crawler_counterexample :
    (crawl_recursive (fun _ => FetchResult.resp 200 [])
        ⟨4, 500, false, exclude_paths_default, fun _ => [], "archive_data"⟩ 1 0
        "https://web.archive.org/web/abc/https://example.com/"
        (initCrawlerState [])).failed
      = [⟨"https://web.archive.org/web/abc/https://example.com/",
          "Invalid archive URL: https://web.archive.org/web/abc/https://example.com/",
          none, some "UnexpectedException", 0⟩] := by
  rw [crawl_records_invalid _ _ 1 0 _ _ []
    (by decide) (by decide) (by decide) (by decide) (by decide) rfl]
  rfl

/-- C5 witness: the amended theorem instantiated at the same concrete
undecomposable archive URL, fresh state and 200-status oracle. -/
theorem c5_invalid_url_failure_witness :
    save_page_content (fun _ => []) "archive_data" []
        "https://web.archive.org/web/abc/https://example.com/" ""
      = Except.error
          ("Invalid archive URL: https://web.archive.org/web/abc/https://example.com/") ∧
    (crawl_recursive (fun _ => FetchResult.resp 200 [])
        ⟨4, 500, false, exclude_paths_default, fun _ => [], "archive_data"⟩ 1 0
        "https://web.archive.org/web/abc/https://example.com/"
        (initCrawlerState [])).failed
      = (initCrawlerState []).failed ++
          [⟨"https://web.archive.org/web/abc/https://example.com/",
            "Invalid archive URL: https://web.archive.org/web/abc/https://example.com/",
            none, some "UnexpectedException", 0⟩] := by
  have h := c5_invalid_url_failure
    "https://web.archive.org/web/abc/https://example.com/" (by decide)
  exact ⟨h.1 (fun _ => []) "archive_data" [] "",
    h.2 (fun _ => FetchResult.resp 200 [])
      ⟨4, 500, false, exclude_paths_default, fun _ => [], "archive_data"⟩ 1 0
      (initCrawlerState []) [] (by decide) (by decide) (by decide) (by decide) rfl⟩
